import Mathlib

/-!
Verification development for the esparto layout/content tree engine.

The repository ships only documentation, notebooks and packaging metadata;
the Python implementation modules (`esparto._layout`, `esparto.design.adaptors`,
`esparto._content`, ...) are not present in the source tree.  Every definition
below is therefore modelled from the specification (spec.md sections 3, 4, 7
and 8) and from the behaviour documented in the repository's user guides
(`docs/02-user-guide/quick-reference.md`, `docs/02-user-guide/quick-start.md`,
`docs/01-getting-started/quickstart.md`, README examples).
-/

namespace Esparto

/-- Modelled from the spec: the structural variants of a layout-tree Node
(spec.md section 3: Page, Section, Row, Column, Card, Spacer, PageBreak). -/
inductive NodeKind where
  | pageK
  | sectionK
  | rowK
  | columnK
  | cardK
  | spacerK
  | pageBreakK
deriving DecidableEq

/-- Modelled from the spec: display name of each Node kind, as used by the
`tree()` structure summary in the user guide. -/
def kindName : NodeKind → String
  | .pageK => "Page"
  | .sectionK => "Section"
  | .rowK => "Row"
  | .columnK => "Column"
  | .cardK => "Card"
  | .spacerK => "Spacer"
  | .pageBreakK => "PageBreak"

/-- Modelled from the spec: Content leaf variants (spec.md section 3:
Text/Markdown, Image, Table, Figure, RawMarkup), each wrapping one
user-supplied value, represented here by its payload string. -/
inductive Content where
  | text (md : String)
  | image (path : String)
  | table (data : String)
  | figure (data : String)
  | rawMarkup (html : String)
deriving DecidableEq

/-- Modelled from the spec: per-variant rendering of a Content leaf to an
embeddable HTML fragment (spec.md section 4.3).  Markdown conversion and the
table/figure renderers are abstracted as tagged wrappings of the payload;
RawMarkup passes through unchanged. -/
def renderContent : Content → String
  | .text md => "<div class=\"es-markdown\">" ++ md ++ "</div>"
  | .image p => "<img src=\"" ++ p ++ "\">"
  | .table d => "<table>" ++ d ++ "</table>"
  | .figure d => "<figure>" ++ d ++ "</figure>"
  | .rawMarkup h => h

/-- Modelled from the spec: class name of a Content leaf as shown by the
`tree()` structure summary (the user guide shows Markdown and Image). -/
def contentName : Content → String
  | .text _ => "Markdown"
  | .image _ => "Image"
  | .table _ => "DataFrame"
  | .figure _ => "Figure"
  | .rawMarkup _ => "RawMarkup"

/-- Modelled from the spec: the runtime shapes of values a caller may assign
into the tree (spec.md section 4.1): an existing Content instance, a string
(path or literal markdown), a recognised plotting object, a recognised
tabular object, or a value of an unsupported type (carrying its type name). -/
inductive Value where
  | content (c : Content)
  | str (s : String)
  | figureObj (data : String)
  | tableObj (data : String)
  | unsupported (typeName : String)
deriving DecidableEq

/-- Modelled from the spec: a child address is a positional index (possibly
negative, Python style) or a string key matched against child titles
(spec.md section 4.2). -/
inductive Key where
  | idx (i : Int)
  | name (s : String)
deriving DecidableEq

/-- Modelled from the spec: the error taxonomy of spec.md section 7 —
dispatch errors name the unsupported type, lookup errors carry the failed
key, ambiguous attribute matches are errors, missing referenced files are
external resource errors, irreconcilable placements are schema errors. -/
inductive EspError where
  | dispatchError (typeName : String)
  | lookupError (k : Key)
  | ambiguousTitle (attr : String)
  | resourceError (path : String)
  | schemaError
deriving DecidableEq

/-- Modelled from the spec: the shapes an assignment's right-hand side can
take (spec.md section 4.2): a single value, a sequence of values, or a
sequence of keyed single-entry mappings. -/
inductive AssignValue where
  | single (v : Value)
  | seq (vs : List Value)
  | keyed (kvs : List (String × Value))

/-- Modelled from the spec: file extensions recognised as images by the
content dispatcher (spec.md section 4.1, rule 2). -/
def imageExts : List String := [".png", ".jpg", ".jpeg", ".gif", ".svg", ".bmp"]

/-- Modelled from the spec: file extensions recognised as text/markdown files
by the content dispatcher (spec.md section 4.1, rule 3). -/
def textExts : List String := [".md", ".txt"]

/-- Check whether the first string ends with the second, by characters. -/
def strEndsWith (s e : String) : Bool :=
  e.toList.isSuffixOf s.toList

/-- Check whether a path string ends with one of the given extensions. -/
def hasExtIn (exts : List String) (s : String) : Bool :=
  exts.any (fun e => strEndsWith s e)

/-- Modelled from the spec: the content dispatcher (spec.md section 4.1).
Given the local file system (a map from path to file contents) and an input
value, select exactly one Content variant by the first matching rule:
(1) an existing Content instance passes through unchanged; (2) a string with
a recognised image extension becomes Image; (3) a string with a recognised
text/markdown extension is loaded from file and becomes Text (a missing file
is an external resource error, spec.md section 7); (4) a recognised
plotting/tabular object becomes Figure/Table; (5) any other string becomes
Text holding the literal markdown.  Unmatched types raise a dispatch error
naming the unsupported type. -/
def dispatch (fs : String → Option String) : Value → Except EspError Content
  | .content c => .ok c
  | .str s =>
    if hasExtIn imageExts s then .ok (.image s)
    else if hasExtIn textExts s then
      match fs s with
      | some body => .ok (.text body)
      | none => .error (.resourceError s)
    else .ok (.text s)
  | .figureObj d => .ok (.figure d)
  | .tableObj d => .ok (.table d)
  | .unsupported ty => .error (.dispatchError ty)

/-- Dispatch every element of a sequence, propagating the first error. -/
def dispatchAll (fs : String → Option String) : List Value → Except EspError (List Content)
  | [] => .ok []
  | v :: vs =>
    match dispatch fs v with
    | .error e => .error e
    | .ok c =>
      match dispatchAll fs vs with
      | .error e => .error e
      | .ok cs => .ok (c :: cs)

/-- Dispatch the value of every keyed single-entry mapping in a sequence,
propagating the first error. -/
def dispatchPairs (fs : String → Option String) : List (String × Value) → Except EspError (List Content)
  | [] => .ok []
  | kv :: kvs =>
    match dispatch fs kv.2 with
    | .error e => .error e
    | .ok c =>
      match dispatchPairs fs kvs with
      | .error e => .error e
      | .ok cs => .ok (c :: cs)

/-- Modelled from the spec: a layout-tree Node (spec.md section 3) — either a
container of a given kind with an optional title and an ordered child list,
or a Content leaf. -/
inductive Node where
  | branch (k : NodeKind) (title : Option String) (children : List Node)
  | leaf (c : Content)

/-- Title of a node, when it is a titled container. -/
def Node.titleOf : Node → Option String
  | .branch _ t _ => t
  | .leaf _ => none

/-- Children of a node (a leaf has none). -/
def Node.childrenOf : Node → List Node
  | .branch _ _ ch => ch
  | .leaf _ => []

/-- Modelled from the spec: the fixed schema of tree levels below Page
(spec.md section 3): Page → Section → Row → Column.  Kinds with no
assignable child level yield none. -/
def childKind : NodeKind → Option NodeKind
  | .pageK => some .sectionK
  | .sectionK => some .rowK
  | .rowK => some .columnK
  | _ => none

/-- Modelled from the spec: build a Column node from an assigned value
(spec.md section 4.2).  A single value wraps as one Content leaf; a sequence
places all dispatched contents inside the one Column (user guide: a tuple
assigned at a Column shares that column); a keyed sequence has no Column
level meaning and is a schema error (spec.md section 7). -/
def synthColumn (fs : String → Option String) (t : Option String) :
    AssignValue → Except EspError Node
  | .single v =>
    match dispatch fs v with
    | .error e => .error e
    | .ok c => .ok (.branch .columnK t [.leaf c])
  | .seq vs =>
    match dispatchAll fs vs with
    | .error e => .error e
    | .ok cs => .ok (.branch .columnK t (cs.map .leaf))
  | .keyed _ => .error .schemaError

/-- Modelled from the spec: build a Row node from an assigned value (spec.md
section 4.2).  A single value wraps in one new Column; a sequence makes each
element a sibling Column in this one Row; a sequence of keyed mappings makes
each mapping a titled Column sharing this one Row. -/
def synthRow (fs : String → Option String) (t : Option String) :
    AssignValue → Except EspError Node
  | .single v =>
    match dispatch fs v with
    | .error e => .error e
    | .ok c => .ok (.branch .rowK t [.branch .columnK none [.leaf c]])
  | .seq vs =>
    match dispatchAll fs vs with
    | .error e => .error e
    | .ok cs => .ok (.branch .rowK t (cs.map fun c => .branch .columnK none [.leaf c]))
  | .keyed kvs =>
    match dispatchPairs fs kvs with
    | .error e => .error e
    | .ok cs =>
      .ok (.branch .rowK t (List.zipWith (fun kv c => .branch .columnK (some kv.1) [.leaf c]) kvs cs))

/-- Modelled from the spec: build a Section node from an assigned value by
wrapping the synthesized Row (spec.md section 4.2: auto-layout expansion is
recursive through the missing levels). -/
def synthSection (fs : String → Option String) (t : Option String)
    (av : AssignValue) : Except EspError Node :=
  match synthRow fs none av with
  | .error e => .error e
  | .ok r => .ok (.branch .sectionK t [r])

/-- Modelled from the spec: build the child of a container at the level the
schema requires (spec.md sections 3 and 4.2). -/
def synthChild (fs : String → Option String) (k : NodeKind) (t : Option String)
    (av : AssignValue) : Except EspError Node :=
  match k with
  | .sectionK => synthSection fs t av
  | .rowK => synthRow fs t av
  | .columnK => synthColumn fs t av
  | _ => .error .schemaError

/-- Does this child carry exactly the given title? -/
def titleMatches (s : String) (n : Node) : Bool :=
  decide (n.titleOf = some s)

/-- Position of the first child satisfying the predicate. -/
def findIdxA (p : Node → Bool) : List Node → Option Nat
  | [] => none
  | x :: xs => if p x then some 0 else (findIdxA p xs).map (· + 1)

/-- Number of children satisfying the predicate. -/
def countA (p : Node → Bool) : List Node → Nat
  | [] => 0
  | x :: xs => (if p x then 1 else 0) + countA p xs

/-- Normalise a possibly negative index against a length, Python style. -/
def normIdx (i : Int) (n : Nat) : Int :=
  if i < 0 then i + n else i

/-- Resolve a positional index: in range after normalisation, or nothing. -/
def resolveIdx (i : Int) (n : Nat) : Option Nat :=
  if 0 ≤ normIdx i n then
    if normIdx i n < (n : Int) then some (normIdx i n).toNat else none
  else none

/-- Modelled from the spec: resolve a key against an ordered child list
(spec.md section 4.2).  A numeric index is strictly positional (negative
indices count from the end, Python style) and yields a position only when in
range; a string key yields the position of the first child with that title. -/
def resolveKey (ch : List Node) : Key → Option Nat
  | .idx i => resolveIdx i ch.length
  | .name s => findIdxA (titleMatches s) ch

/-- Title the synthesized child receives: a string key titles a new or
replaced child with that string (spec.md section 4.2); replacement through a
positional index keeps the existing child's title; appending through an
out-of-range index leaves the child untitled. -/
def assignTitle (ch : List Node) (key : Key) : Option String :=
  match key with
  | .name s => some s
  | .idx _ =>
    match resolveKey ch key with
    | some i =>
      match ch[i]? with
      | some n => n.titleOf
      | none => none
    | none => none

/-- Place a synthesized child: replacement keeps the position, a missing
position appends at the end (spec.md section 4.2). -/
def placeChild (ch : List Node) : Option Nat → Node → List Node
  | some i, n => ch.set i n
  | none, n => ch ++ [n]

/-- Modelled from the spec: keyed/indexed assignment on a container (spec.md
section 4.2).  The right-hand side is synthesized down to the schema's next
level, then either replaces the existing child in place or is appended. -/
def setItem (fs : String → Option String) (p : Node) (key : Key)
    (av : AssignValue) : Except EspError Node :=
  match p with
  | .leaf _ => .error .schemaError
  | .branch k t ch =>
    match childKind k with
    | none => .error .schemaError
    | some ck =>
      match synthChild fs ck (assignTitle ch key) av with
      | .error e => .error e
      | .ok n => .ok (.branch k t (placeChild ch (resolveKey ch key) n))

/-- Modelled from the spec: abort semantics of a failed operation (spec.md
section 7) — a failed assignment leaves the tree in its last valid state. -/
def trySetItem (fs : String → Option String) (p : Node) (key : Key)
    (av : AssignValue) : Node :=
  match setItem fs p key av with
  | .ok p2 => p2
  | .error _ => p

/-- Modelled from the spec: keyed/indexed read access (spec.md section 4.2).
Reading a key that does not resolve raises a lookup error and never creates
a child; reads happen only against the existing child list. -/
def getItem (p : Node) (key : Key) : Except EspError Node :=
  match p with
  | .leaf _ => .error (.lookupError key)
  | .branch _ _ ch =>
    match resolveKey ch key with
    | some i =>
      match ch[i]? with
      | some n => .ok n
      | none => .error (.lookupError key)
    | none => .error (.lookupError key)

/-- Modelled from the spec: deletion by index or key (spec.md section 4.2)
removes the resolved child and closes the gap. -/
def delItem (p : Node) (key : Key) : Except EspError Node :=
  match p with
  | .leaf _ => .error (.lookupError key)
  | .branch k t ch =>
    match resolveKey ch key with
    | some i => .ok (.branch k t (ch.eraseIdx i))
    | none => .error (.lookupError key)

/-- Auxiliary scan for identifier conversion: lower-cases alphanumeric
characters and collapses each run of other characters to one underscore; the
flag records whether the previous emitted character was that underscore. -/
def collapseChars : Bool → List Char → List Char
  | _, [] => []
  | prev, c :: cs =>
    if c.isAlphanum then c.toLower :: collapseChars false cs
    else if prev then collapseChars true cs
    else '_' :: collapseChars true cs

/-- Modelled from the spec: convert a title to its identifier form (spec.md
section 3): non-alphanumeric runs collapse to underscore and lookups are
case-insensitive, so the identifier is lower case. -/
def titleToIdentifier (s : String) : String :=
  String.mk (collapseChars false s.toList)

/-- Does this child's title normalise to the given attribute name? -/
def attrMatches (a : String) (n : Node) : Bool :=
  match n.titleOf with
  | some tt => titleToIdentifier tt == a
  | none => false

/-- Modelled from the spec: deletion through a dynamic attribute name
(spec.md sections 4.2 and 4.4 design notes): the attribute resolves by
normalised-title match among the children and fails if zero or more than one
child shares that normalised title. -/
def delAttr (p : Node) (a : String) : Except EspError Node :=
  match p with
  | .leaf _ => .error (.lookupError (.name a))
  | .branch k t ch =>
    match countA (attrMatches a) ch with
    | 0 => .error (.lookupError (.name a))
    | 1 =>
      match findIdxA (attrMatches a) ch with
      | some i => .ok (.branch k t (ch.eraseIdx i))
      | none => .error (.lookupError (.name a))
    | _ => .error (.ambiguousTitle a)

/-- Modelled from the spec: the in-place add operator (user guide
quick-start: `section += value`) synthesizes an untitled child at the
schema's next level and appends it to the child list. -/
def iadd (fs : String → Option String) (p : Node) (av : AssignValue) :
    Except EspError Node :=
  match p with
  | .leaf _ => .error .schemaError
  | .branch k t ch =>
    match childKind k with
    | none => .error .schemaError
    | some ck =>
      match synthChild fs ck none av with
      | .error e => .error e
      | .ok n => .ok (.branch k t (ch ++ [n]))

/-- Title carried by a string key (an index key carries none). -/
def keyTitle : Key → Option String
  | .name s => some s
  | .idx _ => none

/-- Modelled from the spec: `page[key] += value` — the addressed child is
looked up, or created empty and titled with the key on the write path, and
the in-place add appends inside it. -/
def iaddAt (fs : String → Option String) (p : Node) (key : Key)
    (av : AssignValue) : Except EspError Node :=
  match p with
  | .leaf _ => .error .schemaError
  | .branch k t ch =>
    match childKind k with
    | none => .error .schemaError
    | some ck =>
      match resolveKey ch key with
      | some i =>
        match ch[i]? with
        | none => .error (.lookupError key)
        | some child =>
          match iadd fs child av with
          | .error e => .error e
          | .ok child2 => .ok (.branch k t (ch.set i child2))
      | none =>
        match iadd fs (.branch ck (keyTitle key) []) av with
        | .error e => .error e
        | .ok fresh => .ok (.branch k t (ch ++ [fresh]))

/-- Modelled from the spec: assignment addressing a path through the tree
(spec.md section 4.2) — intermediate levels are created, titled with their
string keys, on the write path when missing; the final key performs the
assignment. -/
def setPath (fs : String → Option String) :
    Node → List Key → AssignValue → Except EspError Node
  | _, [], _ => .error .schemaError
  | p, [k], av => setItem fs p k av
  | p, k :: k2 :: ks, av =>
    match p with
    | .leaf _ => .error .schemaError
    | .branch kk t ch =>
      match childKind kk with
      | none => .error .schemaError
      | some ck =>
        match resolveKey ch k with
        | some i =>
          match ch[i]? with
          | none => .error (.lookupError k)
          | some child =>
            match setPath fs child (k2 :: ks) av with
            | .error e => .error e
            | .ok child2 => .ok (.branch kk t (ch.set i child2))
        | none =>
          match setPath fs (.branch ck (keyTitle k) []) (k2 :: ks) av with
          | .error e => .error e
          | .ok fresh => .ok (.branch kk t (ch ++ [fresh]))

/-- Is this node a Content leaf? -/
def isContentLeaf : Node → Bool
  | .leaf _ => true
  | .branch _ _ _ => false

/-- A well-placed Column: content sits directly inside it and it is not an
orphaned empty node (spec.md section 8, auto-vivification invariant). -/
def columnOk : Node → Bool
  | .branch .columnK _ ch => !ch.isEmpty && ch.all isContentLeaf
  | _ => false

/-- A well-placed Row: non-empty, all children well-placed Columns. -/
def rowOk : Node → Bool
  | .branch .rowK _ ch => !ch.isEmpty && ch.all columnOk
  | _ => false

/-- A well-placed Section: non-empty, all children well-placed Rows. -/
def sectionOk : Node → Bool
  | .branch .sectionK _ ch => !ch.isEmpty && ch.all rowOk
  | _ => false

/-- The well-placedness a synthesized child of the given container kind must
satisfy for the assigned content to terminate at exactly Column depth with
no orphaned empty intermediate nodes. -/
def childOk (k : NodeKind) (n : Node) : Bool :=
  match k with
  | .pageK => sectionOk n
  | .sectionK => rowOk n
  | .rowK => columnOk n
  | _ => false

/-- Structure summary entries, mirroring the nested dictionary printed by
`tree()` in the user guide. -/
inductive TreeR where
  | node (label : String) (children : List TreeR)
  | contentLabel (label : String)

mutual

/-- Modelled from the spec: the `tree()` structure summary of a node at the
given position among its siblings — untitled containers display their kind
name and sibling index (user guide: Section 0, Row 0, Column 0). -/
def tree : Node → Nat → TreeR
  | .leaf c, _ => .contentLabel (contentName c)
  | .branch k t ch, i =>
    .node (t.getD (kindName k ++ " " ++ toString i)) (treeList ch 0)

/-- Structure summaries of a child list, enumerating sibling positions. -/
def treeList : List Node → Nat → List TreeR
  | [], _ => []
  | n :: ns, i => tree n i :: treeList ns (i + 1)

end

/-- Structure summary of a whole page. -/
def pageTree (p : Node) : TreeR :=
  tree p 0

/-- Heading level a title renders at, per container kind (spec.md section
4.3: titles render as a heading at that level). -/
def headingLevel : NodeKind → String
  | .pageK => "1"
  | .sectionK => "2"
  | .rowK => "3"
  | .columnK => "4"
  | .cardK => "4"
  | _ => "6"

/-- Render a container's optional title as a heading (absent titles render
no heading, spec.md section 4.3). -/
def headingHtml (k : NodeKind) : Option String → String
  | none => ""
  | some s => "<h" ++ headingLevel k ++ ">" ++ s ++ "</h" ++ headingLevel k ++ ">"

/-- CSS class fragment of a container kind in the serialized grid. -/
def kindClass : NodeKind → String
  | .pageK => "page"
  | .sectionK => "section"
  | .rowK => "row"
  | .columnK => "column"
  | .cardK => "card"
  | .spacerK => "spacer"
  | .pageBreakK => "page-break"

mutual

/-- Modelled from the spec: the tree serializer (spec.md section 4.3) — each
container becomes a div of its grid class with its optional heading followed
by its serialized children in order; a Spacer reserves an empty cell; a
PageBreak emits only a print-only page-break directive; a Content leaf
renders its fragment. -/
def toHtml : Node → String
  | .leaf c => renderContent c
  | .branch k t ch =>
    match k with
    | .spacerK => "<div class=\"es-spacer\"></div>"
    | .pageBreakK => "<div class=\"es-page-break\" style=\"page-break-after: always\"></div>"
    | _ =>
      "<div class=\"es-" ++ kindClass k ++ "\">" ++ headingHtml k t ++ toHtmlList ch ++ "</div>"

/-- Serialize a child list in order. -/
def toHtmlList : List Node → String
  | [] => ""
  | n :: ns => toHtml n ++ toHtmlList ns

end

mutual

/-- Modelled from the spec: structural equality of Nodes (spec.md section 3)
— two Nodes are equal iff their full subtrees agree on node kinds, titles
and child order, with Content compared by equivalent rendering rather than
object identity. -/
def nodeEq : Node → Node → Bool
  | .leaf a, .leaf b => renderContent a == renderContent b
  | .branch k1 t1 c1, .branch k2 t2 c2 =>
    decide (k1 = k2) && decide (t1 = t2) && nodesEq c1 c2
  | _, _ => false

/-- Structural equality of ordered child lists. -/
def nodesEq : List Node → List Node → Bool
  | [], [] => true
  | a :: as, b :: bs => nodeEq a b && nodesEq as bs
  | _, _ => false

end

/-- Demo file system holding one markdown file, used by concrete scenarios. -/
def fsDemo : String → Option String :=
  fun s => if s = "markdown.md" then some "# Hi" else none

/-- A freshly constructed empty page, as in the user-guide scenarios. -/
def demoPage : Node :=
  .branch .pageK (some "New Page") []

/-- The page produced by the scenario `page[Intro] = Hello`. -/
def introPage : Node :=
  .branch .pageK (some "New Page")
    [.branch .sectionK (some "Intro")
      [.branch .rowK none [.branch .columnK none [.leaf (.text "Hello")]]]]

/-- An untitled Row holding one untitled Column holding one content leaf. -/
def rowWrap (c : Content) : Node :=
  .branch .rowK none [.branch .columnK none [.leaf c]]

/-- C1. For every container above Column depth (Page, Section or Row) and
every bare content value the dispatcher accepts, keyed or indexed assignment
synthesizes the missing intermediate Row/Column levels: the synthesized
child is well placed (content reachable at exactly Column depth, no orphaned
empty intermediate nodes) and it replaces or appends at the resolved
position, leaving the other children untouched. -/
theorem claim1_auto_vivification (fs : String → Option String) (k : NodeKind)
    (t : Option String) (ch : List Node) (key : Key) (v : Value) (c : Content)
    (hk : k = .pageK ∨ k = .sectionK ∨ k = .rowK)
    (hd : dispatch fs v = .ok c) :
    ∃ ck n, childKind k = some ck ∧
      synthChild fs ck (assignTitle ch key) (.single v) = .ok n ∧
      childOk k n = true ∧
      setItem fs (.branch k t ch) key (.single v) =
        .ok (.branch k t (placeChild ch (resolveKey ch key) n)) := by
  rcases hk with rfl | rfl | rfl
  · refine ⟨.sectionK,
      .branch .sectionK (assignTitle ch key) [rowWrap c], rfl, ?_, ?_, ?_⟩
    · simp [synthChild, synthSection, synthRow, hd, rowWrap]
    · simp [childOk, sectionOk, rowOk, columnOk, isContentLeaf, rowWrap]
    · simp [setItem, childKind, synthChild, synthSection, synthRow, hd, rowWrap]
  · refine ⟨.rowK,
      .branch .rowK (assignTitle ch key) [.branch .columnK none [.leaf c]], rfl, ?_, ?_, ?_⟩
    · simp [synthChild, synthRow, hd]
    · simp [childOk, rowOk, columnOk, isContentLeaf]
    · simp [setItem, childKind, synthChild, synthRow, hd]
  · refine ⟨.columnK, .branch .columnK (assignTitle ch key) [.leaf c], rfl, ?_, ?_, ?_⟩
    · simp [synthChild, synthColumn, hd]
    · simp [childOk, columnOk, isContentLeaf]
    · simp [setItem, childKind, synthChild, synthColumn, hd]

/-- C1 witness: the user-guide scenario — assigning the string Hello under
the fresh page at key Intro yields one Section titled Intro containing one
Row containing one Column containing one Markdown text content, as reported
by the structure summary. -/
theorem claim1_auto_vivification_witness :
    (∃ ck n, childKind .pageK = some ck ∧
      synthChild fsDemo ck (assignTitle [] (.name "Intro")) (.single (.str "Hello")) = .ok n ∧
      childOk .pageK n = true ∧
      setItem fsDemo (.branch .pageK (some "New Page") []) (.name "Intro") (.single (.str "Hello")) =
        .ok (.branch .pageK (some "New Page")
          (placeChild [] (resolveKey [] (.name "Intro")) n))) ∧
    setItem fsDemo demoPage (.name "Intro") (.single (.str "Hello")) = .ok introPage ∧
    pageTree introPage =
      .node "New Page" [.node "Intro" [.node "Row 0" [.node "Column 0" [.contentLabel "Markdown"]]]] := by
  refine ⟨claim1_auto_vivification fsDemo .pageK (some "New Page") [] (.name "Intro")
    (.str "Hello") (.text "Hello") (Or.inl rfl) (by rfl), by rfl, ?_⟩
  simp [pageTree, tree, treeList, introPage, contentName, kindName]
  exact ⟨rfl, rfl⟩

/-- C2. The content dispatcher selects exactly one Content variant by the
first matching rule of the ordered precedence: an existing Content instance
passes through unchanged; a path string with an image extension becomes
Image; a path string with a text/markdown extension is loaded from file and
becomes Text; a recognised plotting/tabular object becomes Figure/Table; any
other string becomes literal markdown Text. -/
theorem claim2_dispatch_precedence (fs : String → Option String) :
    (∀ c, dispatch fs (.content c) = .ok c) ∧
    (∀ s, hasExtIn imageExts s = true → dispatch fs (.str s) = .ok (.image s)) ∧
    (∀ s body, hasExtIn imageExts s = false → hasExtIn textExts s = true →
      fs s = some body → dispatch fs (.str s) = .ok (.text body)) ∧
    (∀ d, dispatch fs (.figureObj d) = .ok (.figure d)) ∧
    (∀ d, dispatch fs (.tableObj d) = .ok (.table d)) ∧
    (∀ s, hasExtIn imageExts s = false → hasExtIn textExts s = false →
      dispatch fs (.str s) = .ok (.text s)) := by
  refine ⟨fun c => rfl, fun s h => ?_, fun s body h1 h2 h3 => ?_,
    fun d => rfl, fun d => rfl, fun s h1 h2 => ?_⟩
  · simp [dispatch, h]
  · simp [dispatch, h1, h2, h3]
  · simp [dispatch, h1, h2]

/-- C2 witness: one concrete input per precedence rule, dispatched under the
demo file system. -/
theorem claim2_dispatch_precedence_witness :
    dispatch fsDemo (.content (.figure "f")) = .ok (.figure "f") ∧
    dispatch fsDemo (.str "pic.png") = .ok (.image "pic.png") ∧
    dispatch fsDemo (.str "markdown.md") = .ok (.text "# Hi") ∧
    dispatch fsDemo (.figureObj "fig") = .ok (.figure "fig") ∧
    dispatch fsDemo (.tableObj "df") = .ok (.table "df") ∧
    dispatch fsDemo (.str "Hello") = .ok (.text "Hello") := by
  obtain ⟨h1, h2, h3, h4, h5, h6⟩ := claim2_dispatch_precedence fsDemo
  exact ⟨h1 (.figure "f"), h2 "pic.png" (by rfl),
    h3 "markdown.md" "# Hi" (by rfl) (by rfl) (by rfl),
    h4 "fig", h5 "df", h6 "Hello" (by rfl) (by rfl)⟩

/-- C7. A value whose type matches no Content variant raises a dispatch
error naming the unsupported type at assignment time — the dispatcher itself
fails, assignment propagates exactly that error, and the aborted assignment
leaves the prior tree unchanged (no sibling modified). -/
theorem claim7_dispatch_error_atomic (fs : String → Option String) (ty : String) :
    dispatch fs (.unsupported ty) = .error (.dispatchError ty) ∧
    (∀ (k : NodeKind) (t : Option String) (ch : List Node) (key : Key) (ck : NodeKind),
      childKind k = some ck →
      setItem fs (.branch k t ch) key (.single (.unsupported ty)) =
        .error (.dispatchError ty) ∧
      trySetItem fs (.branch k t ch) key (.single (.unsupported ty)) = .branch k t ch) := by
  refine ⟨rfl, fun k t ch key ck hck => ?_⟩
  cases k <;> simp [childKind] at hck <;>
    simp [setItem, trySetItem, childKind, synthChild, synthSection, synthRow, synthColumn, dispatch]

/-- C7 witness: assigning an unsupported object at a key of a page holding
one existing section errors and leaves the page, and so its existing
sibling, exactly as it was. -/
theorem claim7_dispatch_error_atomic_witness :
    dispatch fsDemo (.unsupported "DatabaseConnection") = .error (.dispatchError "DatabaseConnection") ∧
    setItem fsDemo introPage (.name "More") (.single (.unsupported "DatabaseConnection")) =
      .error (.dispatchError "DatabaseConnection") ∧
    trySetItem fsDemo introPage (.name "More") (.single (.unsupported "DatabaseConnection")) =
      introPage := by
  obtain ⟨h1, h2⟩ := claim7_dispatch_error_atomic fsDemo "DatabaseConnection"
  obtain ⟨h3, h4⟩ := h2 .pageK (some "New Page")
    [.branch .sectionK (some "Intro")
      [.branch .rowK none [.branch .columnK none [.leaf (.text "Hello")]]]]
    (.name "More") .sectionK rfl
  exact ⟨h1, h3, h4⟩

theorem dispatchAll_length (fs : String → Option String) (vs : List Value) :
    ∀ cs, dispatchAll fs vs = .ok cs → cs.length = vs.length := by
  induction vs with
  | nil => intro cs h; simp [dispatchAll] at h; simp [← h]
  | cons v vs ih =>
    intro cs h
    simp only [dispatchAll] at h
    split at h
    · cases h
    · split at h
      · cases h
      · cases h
        simp [ih _ (by assumption)]

theorem dispatchPairs_length (fs : String → Option String) (kvs : List (String × Value)) :
    ∀ cs, dispatchPairs fs kvs = .ok cs → cs.length = kvs.length := by
  induction kvs with
  | nil => intro cs h; simp [dispatchPairs] at h; simp [← h]
  | cons kv kvs ih =>
    intro cs h
    simp only [dispatchPairs] at h
    split at h
    · cases h
    · split at h
      · cases h
      · cases h
        simp [ih _ (by assumption)]

theorem findIdxA_lt (p : Node → Bool) (l : List Node) :
    ∀ i, findIdxA p l = some i → i < l.length := by
  induction l with
  | nil => intro i h; simp [findIdxA] at h
  | cons x xs ih =>
    intro i h
    simp only [findIdxA] at h
    split at h
    · cases h; simp
    · cases hx : findIdxA p xs with
      | none => rw [hx] at h; cases h
      | some i2 =>
        rw [hx] at h
        cases h
        have := ih i2 hx
        simp
        omega

theorem findIdxA_found (p : Node → Bool) (l : List Node) :
    ∀ i nd, findIdxA p l = some i → l[i]? = some nd → p nd = true := by
  induction l with
  | nil => intro i nd h; simp [findIdxA] at h
  | cons x xs ih =>
    intro i nd h he
    simp only [findIdxA] at h
    split at h
    · cases h
      simp at he
      cases he
      assumption
    · cases hx : findIdxA p xs with
      | none => rw [hx] at h; cases h
      | some i2 =>
        rw [hx] at h
        cases h
        exact ih i2 nd hx (by simpa using he)

theorem findIdxA_transfer (p q : Node → Bool) (l : List Node) :
    ∀ i, findIdxA p l = some i →
    (∀ n, q n = true → p n = true) →
    (∀ nd, l[i]? = some nd → q nd = true) →
    findIdxA q l = some i := by
  induction l with
  | nil => intro i h; simp [findIdxA] at h
  | cons x xs ih =>
    intro i h hpq hqi
    simp only [findIdxA] at h ⊢
    split at h
    · cases h
      have hq : q x = true := hqi x (by simp)
      simp [hq]
    · cases hx : findIdxA p xs with
      | none => rw [hx] at h; cases h
      | some i2 =>
        rw [hx] at h
        cases h
        have hqx : q x = false := by
          cases hq : q x
          · rfl
          · exact absurd (hpq x hq) (by simp_all)
        rw [hqx]
        simp only [Bool.false_eq_true, if_false]
        rw [ih i2 hx hpq (fun nd hnd => hqi nd (by simpa using hnd))]
        rfl

theorem resolveKey_lt (ch : List Node) (key : Key) (i : Nat)
    (h : resolveKey ch key = some i) : i < ch.length := by
  cases key with
  | idx n =>
    simp only [resolveKey] at h
    unfold resolveIdx at h
    split at h
    · split at h
      · cases h
        omega
      · cases h
    · cases h
  | name s => exact findIdxA_lt _ ch i h

/-- C3. Assigning a tuple of n values at a Row addressed by key produces
exactly one Row containing n sibling Columns in tuple order, each holding
one dispatched element; when the elements are single-entry keyed mappings,
each resulting Column is titled with its mapping key and all share that one
Row; and the two-key path scenario builds exactly that Row under its
Section. -/
theorem claim3_tuple_row (fs : String → Option String) :
    (∀ (t : Option String) (vs : List Value) (cs : List Content),
      dispatchAll fs vs = .ok cs →
      cs.length = vs.length ∧
      synthRow fs t (.seq vs) =
        .ok (.branch .rowK t (cs.map fun c => .branch .columnK none [.leaf c])) ∧
      (cs.map fun c => Node.branch .columnK none [.leaf c]).length = vs.length) ∧
    (∀ (t : Option String) (kvs : List (String × Value)) (cs : List Content),
      dispatchPairs fs kvs = .ok cs →
      cs.length = kvs.length ∧
      synthRow fs t (.keyed kvs) =
        .ok (.branch .rowK t
          (List.zipWith (fun kv c => .branch .columnK (some kv.1) [.leaf c]) kvs cs)) ∧
      (List.zipWith (fun kv c => Node.branch .columnK (some kv.1) [.leaf c]) kvs cs).length
        = kvs.length) ∧
    (∀ (st : Option String) (sch : List Node) (keyR : Key) (vs : List Value)
      (cs : List Content), dispatchAll fs vs = .ok cs →
      setItem fs (.branch .sectionK st sch) keyR (.seq vs) =
        .ok (.branch .sectionK st (placeChild sch (resolveKey sch keyR)
          (.branch .rowK (assignTitle sch keyR)
            (cs.map fun c => .branch .columnK none [.leaf c]))))) ∧
    (∀ (tp : Option String) (v1 v2 : Value) (c1 c2 : Content),
      dispatch fs v1 = .ok c1 → dispatch fs v2 = .ok c2 →
      setPath fs (.branch .pageK tp []) [.name "S", .name "R"] (.seq [v1, v2]) =
        .ok (.branch .pageK tp [.branch .sectionK (some "S")
          [.branch .rowK (some "R")
            [.branch .columnK none [.leaf c1], .branch .columnK none [.leaf c2]]]])) := by
  refine ⟨fun t vs cs h => ?_, fun t kvs cs h => ?_, fun st sch keyR vs cs h => ?_,
    fun tp v1 v2 c1 c2 h1 h2 => ?_⟩
  · exact ⟨dispatchAll_length fs vs cs h, by simp [synthRow, h],
      by simp [dispatchAll_length fs vs cs h]⟩
  · refine ⟨dispatchPairs_length fs kvs cs h, by simp [synthRow, h], ?_⟩
    simp [List.length_zipWith, dispatchPairs_length fs kvs cs h]
  · simp [setItem, childKind, synthChild, synthRow, h]
  · simp [setPath, setItem, childKind, synthChild, synthRow, dispatchAll, h1, h2,
      resolveKey, findIdxA, assignTitle, placeChild, keyTitle]

/-- C3 witness: the user-guide scenario — assigning a pair at the Row key R
under Section key S yields one Row R with two untitled Columns holding the
two dispatched contents, and the keyed-mapping form yields titled Columns
sharing one Row. -/
theorem claim3_tuple_row_witness :
    setPath fsDemo (.branch .pageK (some "Page Title") []) [.name "S", .name "R"]
      (.seq [.str "obj a", .str "obj b"]) =
      .ok (.branch .pageK (some "Page Title") [.branch .sectionK (some "S")
        [.branch .rowK (some "R")
          [.branch .columnK none [.leaf (.text "obj a")],
           .branch .columnK none [.leaf (.text "obj b")]]]]) ∧
    synthRow fsDemo (some "Row One") (.keyed [("Column One", .str "Some content"),
        ("Column Two", .str "More content")]) =
      .ok (.branch .rowK (some "Row One")
        [.branch .columnK (some "Column One") [.leaf (.text "Some content")],
         .branch .columnK (some "Column Two") [.leaf (.text "More content")]]) := by
  obtain ⟨h1, h2, h3, h4⟩ := claim3_tuple_row fsDemo
  refine ⟨h4 (some "Page Title") (.str "obj a") (.str "obj b")
    (.text "obj a") (.text "obj b") (by rfl) (by rfl), ?_⟩
  have := (h2 (some "Row One") [("Column One", .str "Some content"),
    ("Column Two", .str "More content")]
    [.text "Some content", .text "More content"] (by rfl)).2.1
  simpa using this

/-- C4. Assignment through a key or index that resolves to an existing
child replaces that child in place: the child list keeps its length, every
other position is untouched, and the new payload sits at the resolved
position; a key or index that resolves to no child appends the new child at
the end, leaving all existing positions untouched. -/
theorem claim4_replace_or_append (fs : String → Option String) (k : NodeKind)
    (t : Option String) (ch : List Node) (key : Key) (av : AssignValue)
    (ck : NodeKind) (n : Node)
    (hck : childKind k = some ck)
    (hs : synthChild fs ck (assignTitle ch key) av = .ok n) :
    (∀ i, resolveKey ch key = some i →
      i < ch.length ∧
      setItem fs (.branch k t ch) key av = .ok (.branch k t (ch.set i n)) ∧
      (ch.set i n).length = ch.length ∧
      (∀ j, j ≠ i → (ch.set i n)[j]? = ch[j]?) ∧
      (ch.set i n)[i]? = some n) ∧
    (resolveKey ch key = none →
      setItem fs (.branch k t ch) key av = .ok (.branch k t (ch ++ [n])) ∧
      (ch ++ [n]).length = ch.length + 1 ∧
      (∀ j, j < ch.length → (ch ++ [n])[j]? = ch[j]?) ∧
      (ch ++ [n])[ch.length]? = some n) := by
  constructor
  · intro i hres
    have hlt := resolveKey_lt ch key i hres
    refine ⟨hlt, ?_, by simp, ?_, ?_⟩
    · simp [setItem, hck, hs, hres, placeChild]
    · intro j hj
      exact List.getElem?_set_ne (Ne.symm hj)
    · exact List.getElem?_set_self hlt
  · intro hres
    refine ⟨?_, by simp, ?_, List.getElem?_concat_length ch n⟩
    · simp [setItem, hck, hs, hres, placeChild]
    · intro j hj
      exact List.getElem?_append_left hj

/-- C4 witness: replacing the existing Intro section of the demo page in
place keeps the single-child list at length one with the new payload at
position zero, and assigning a fresh key on the empty page appends. -/
theorem claim4_replace_or_append_witness :
    (resolveKey introPage.childrenOf (.name "Intro") = some 0 ∧
      setItem fsDemo introPage (.name "Intro") (.single (.str "Bye")) =
        .ok (.branch .pageK (some "New Page")
          [.branch .sectionK (some "Intro") [rowWrap (.text "Bye")]]) ∧
      (introPage.childrenOf.set 0
        (.branch .sectionK (some "Intro") [rowWrap (.text "Bye")])).length
        = introPage.childrenOf.length) ∧
    (resolveKey ([] : List Node) (.name "Intro") = none ∧
      setItem fsDemo demoPage (.name "Intro") (.single (.str "Hello")) =
        .ok (.branch .pageK (some "New Page")
          [.branch .sectionK (some "Intro") [rowWrap (.text "Hello")]])) := by
  have h1 := (claim4_replace_or_append fsDemo .pageK (some "New Page")
    introPage.childrenOf (.name "Intro") (.single (.str "Bye")) .sectionK
    (.branch .sectionK (some "Intro") [rowWrap (.text "Bye")]) rfl (by rfl)).1 0 (by rfl)
  have h2 := (claim4_replace_or_append fsDemo .pageK (some "New Page")
    ([] : List Node) (.name "Intro") (.single (.str "Hello")) .sectionK
    (.branch .sectionK (some "Intro") [rowWrap (.text "Hello")]) rfl (by rfl)).2 (by rfl)
  refine ⟨⟨by rfl, ?_, h1.2.2.1⟩, ⟨by rfl, ?_⟩⟩
  · have := h1.2.1
    simpa [introPage, Node.childrenOf] using this
  · have := h2.1
    simpa [demoPage] using this

/-- C5. A read access through an index or string key that resolves to no
existing child raises a lookup error, and reads never create children: a
successful read only ever returns a node already present in the child
list. -/
theorem claim5_read_no_create (k : NodeKind) (t : Option String)
    (ch : List Node) (key : Key)
    (h : resolveKey ch key = none) :
    getItem (.branch k t ch) key = .error (.lookupError key) ∧
    (∀ (key2 : Key) (n : Node), getItem (.branch k t ch) key2 = .ok n → n ∈ ch) := by
  constructor
  · simp [getItem, h]
  · intro key2 n hg
    cases hr : resolveKey ch key2 with
    | none => simp [getItem, hr] at hg
    | some i =>
      cases he : ch[i]? with
      | none => simp [getItem, hr, he] at hg
      | some m =>
        simp [getItem, hr, he] at hg
        subst hg
        exact List.getElem?_mem he

/-- C5 witness: reading the missing key Later on the demo page errors
without creating anything, and the only successful reads return existing
children. -/
theorem claim5_read_no_create_witness :
    resolveKey introPage.childrenOf (.name "Later") = none ∧
    getItem (.branch .pageK (some "New Page") introPage.childrenOf) (.name "Later") =
      .error (.lookupError (.name "Later")) ∧
    (∀ (key2 : Key) (n : Node),
      getItem (.branch .pageK (some "New Page") introPage.childrenOf) key2 = .ok n →
      n ∈ introPage.childrenOf) := by
  have h := claim5_read_no_create .pageK (some "New Page")
    introPage.childrenOf (.name "Later") (by rfl)
  exact ⟨by rfl, h.1, h.2⟩

/-- C6. Successful deletion by index or key removes exactly one child — the
length drops by one, positions before the hole are untouched and positions
after shift down with no placeholder gap — and deletion through a dynamic
attribute name whose normalised title matches exactly one child removes the
same child as deletion by that child's title. -/
theorem claim6_delete_invariant (k : NodeKind) (t : Option String) (ch : List Node) :
    (∀ (key : Key) (i : Nat), resolveKey ch key = some i →
      i < ch.length ∧
      delItem (.branch k t ch) key = .ok (.branch k t (ch.eraseIdx i)) ∧
      (ch.eraseIdx i).length + 1 = ch.length ∧
      (∀ j, j < i → (ch.eraseIdx i)[j]? = ch[j]?) ∧
      (∀ j, i ≤ j → (ch.eraseIdx i)[j]? = ch[j + 1]?)) ∧
    (∀ (a : String) (i : Nat) (nd : Node) (tt : String),
      countA (attrMatches a) ch = 1 →
      findIdxA (attrMatches a) ch = some i →
      ch[i]? = some nd → nd.titleOf = some tt →
      delAttr (.branch k t ch) a = delItem (.branch k t ch) (.name tt) ∧
      delAttr (.branch k t ch) a = .ok (.branch k t (ch.eraseIdx i))) := by
  constructor
  · intro key i hres
    have hlt := resolveKey_lt ch key i hres
    refine ⟨hlt, by simp [delItem, hres], ?_, ?_, ?_⟩
    · rw [List.length_eraseIdx_of_lt hlt]
      omega
    · intro j hj
      exact List.getElem?_eraseIdx_of_lt ch i j hj
    · intro j hj
      exact List.getElem?_eraseIdx_of_ge ch i j hj
  · intro a i nd tt hc hfind hnd htt
    have hmatch : attrMatches a nd = true := findIdxA_found _ ch i nd hfind hnd
    have hta : (titleToIdentifier tt == a) = true := by
      simpa [attrMatches, htt] using hmatch
    have htrans : findIdxA (titleMatches tt) ch = some i := by
      refine findIdxA_transfer (attrMatches a) (titleMatches tt) ch i hfind ?_ ?_
      · intro m hm
        have hmt : m.titleOf = some tt := by
          simpa [titleMatches] using hm
        simp [attrMatches, hmt, hta]
      · intro nd2 hnd2
        rw [hnd] at hnd2
        cases hnd2
        simp [titleMatches, htt]
    have hda : delAttr (.branch k t ch) a = .ok (.branch k t (ch.eraseIdx i)) := by
      simp [delAttr, hc, hfind]
    refine ⟨?_, hda⟩
    rw [hda]
    simp [delItem, resolveKey, htrans]

/-- C6 witness: on a Row with two titled Columns, deleting index one drops
the length from two to one with no gap, and deleting attribute column_two
removes the same child as deleting title Column Two. -/
theorem claim6_delete_invariant_witness :
    (delItem (.branch .rowK (some "Row One")
        [.branch .columnK (some "Column One") [.leaf (.image "a.png")],
         .branch .columnK (some "Column Two") [.leaf (.image "b.png")]]) (.idx 1) =
      .ok (.branch .rowK (some "Row One")
        [.branch .columnK (some "Column One") [.leaf (.image "a.png")]])) ∧
    (delAttr (.branch .rowK (some "Row One")
        [.branch .columnK (some "Column One") [.leaf (.image "a.png")],
         .branch .columnK (some "Column Two") [.leaf (.image "b.png")]]) "column_two" =
      delItem (.branch .rowK (some "Row One")
        [.branch .columnK (some "Column One") [.leaf (.image "a.png")],
         .branch .columnK (some "Column Two") [.leaf (.image "b.png")]])
        (.name "Column Two")) := by
  obtain ⟨h1, h2⟩ := claim6_delete_invariant .rowK (some "Row One")
    [.branch .columnK (some "Column One") [.leaf (.image "a.png")],
     .branch .columnK (some "Column Two") [.leaf (.image "b.png")]]
  refine ⟨?_, ?_⟩
  · have := (h1 (.idx 1) 1 (by rfl)).2.1
    simpa using this
  · exact (h2 "column_two" 1
      (.branch .columnK (some "Column Two") [.leaf (.image "b.png")])
      "Column Two" (by rfl) (by rfl) (by rfl) (by rfl)).1

/-- C10. The in-place add of a bare value on a Section appends one new Row
containing exactly one Column holding the dispatched content; a second
in-place add appends its own new Row after the first rather than adding a
Column to the last existing Row; and the keyed form on a page creates the
titled Section on first use. -/
theorem claim10_iadd_new_row (fs : String → Option String) (t : Option String)
    (ch : List Node) (v w : Value) (c d : Content)
    (hv : dispatch fs v = .ok c) (hw : dispatch fs w = .ok d) :
    iadd fs (.branch .sectionK t ch) (.single v) =
      .ok (.branch .sectionK t (ch ++ [rowWrap c])) ∧
    iadd fs (.branch .sectionK t (ch ++ [rowWrap c])) (.single w) =
      .ok (.branch .sectionK t (ch ++ [rowWrap c, rowWrap d])) ∧
    (∀ (tp : Option String) (s : String),
      iaddAt fs (.branch .pageK tp []) (.name s) (.single v) =
        .ok (.branch .pageK tp [.branch .sectionK (some s) [rowWrap c]])) := by
  refine ⟨?_, ?_, fun tp s => ?_⟩
  · simp [iadd, childKind, synthChild, synthRow, hv, rowWrap]
  · simp [iadd, childKind, synthChild, synthRow, hw, rowWrap]
  · simp [iaddAt, childKind, resolveKey, findIdxA, iadd, synthChild, synthRow,
      hv, keyTitle, rowWrap]

/-- C10 witness: the quick-start scenario — two successive in-place adds of
markdown text under the key Section Title leave the section with Row 0 and
Row 1, each holding exactly one Column with one Markdown content. -/
theorem claim10_iadd_new_row_witness :
    iaddAt fsDemo (.branch .pageK (some "Page Title") []) (.name "Section Title")
      (.single (.str "Some text")) =
      .ok (.branch .pageK (some "Page Title")
        [.branch .sectionK (some "Section Title") [rowWrap (.text "Some text")]]) ∧
    iaddAt fsDemo (.branch .pageK (some "Page Title")
        [.branch .sectionK (some "Section Title") [rowWrap (.text "Some text")]])
      (.name "Section Title") (.single (.str "More text")) =
      .ok (.branch .pageK (some "Page Title")
        [.branch .sectionK (some "Section Title")
          [rowWrap (.text "Some text"), rowWrap (.text "More text")]]) ∧
    pageTree (.branch .pageK (some "Page Title")
        [.branch .sectionK (some "Section Title")
          [rowWrap (.text "Some text"), rowWrap (.text "More text")]]) =
      .node "Page Title" [.node "Section Title"
        [.node "Row 0" [.node "Column 0" [.contentLabel "Markdown"]],
         .node "Row 1" [.node "Column 0" [.contentLabel "Markdown"]]]] := by
  refine ⟨(claim10_iadd_new_row fsDemo none [] (.str "Some text") (.str "More text")
    (.text "Some text") (.text "More text") (by rfl) (by rfl)).2.2 (some "Page Title")
    "Section Title", by rfl, ?_⟩
  simp [pageTree, tree, treeList, rowWrap, contentName, kindName]
  refine ⟨⟨rfl, rfl⟩, rfl, rfl⟩

mutual

theorem nodeEq_refl (a : Node) : nodeEq a a = true := by
  cases a with
  | leaf c => simp [nodeEq]
  | branch k t ch => simp [nodeEq, nodesEq_refl ch]

theorem nodesEq_refl (as : List Node) : nodesEq as as = true := by
  cases as with
  | nil => rfl
  | cons a as => simp [nodesEq, nodeEq_refl a, nodesEq_refl as]

end

mutual

theorem nodeEq_symm (a b : Node) (h : nodeEq a b = true) : nodeEq b a = true := by
  cases a with
  | leaf x =>
    cases b with
    | leaf y =>
      simp [nodeEq] at h ⊢
      exact h.symm
    | branch k t ch => simp [nodeEq] at h
  | branch k1 t1 c1 =>
    cases b with
    | leaf y => simp [nodeEq] at h
    | branch k2 t2 c2 =>
      simp [nodeEq] at h ⊢
      exact ⟨⟨h.1.1.symm, h.1.2.symm⟩, nodesEq_symm c1 c2 h.2⟩

theorem nodesEq_symm (as bs : List Node) (h : nodesEq as bs = true) :
    nodesEq bs as = true := by
  cases as with
  | nil =>
    cases bs with
    | nil => rfl
    | cons b bs => simp [nodesEq] at h
  | cons a as =>
    cases bs with
    | nil => simp [nodesEq] at h
    | cons b bs =>
      simp [nodesEq] at h ⊢
      exact ⟨nodeEq_symm a b h.1, nodesEq_symm as bs h.2⟩

end

mutual

theorem nodeEq_trans (a b c : Node) (h1 : nodeEq a b = true)
    (h2 : nodeEq b c = true) : nodeEq a c = true := by
  cases a with
  | leaf x =>
    cases b with
    | leaf y =>
      cases c with
      | leaf z =>
        simp [nodeEq] at h1 h2 ⊢
        exact h1.trans h2
      | branch k t ch => simp [nodeEq] at h2
    | branch k t ch => simp [nodeEq] at h1
  | branch k1 t1 c1 =>
    cases b with
    | leaf y => simp [nodeEq] at h1
    | branch k2 t2 c2 =>
      cases c with
      | leaf z => simp [nodeEq] at h2
      | branch k3 t3 c3 =>
        simp [nodeEq] at h1 h2 ⊢
        exact ⟨⟨h1.1.1.trans h2.1.1, h1.1.2.trans h2.1.2⟩,
          nodesEq_trans c1 c2 c3 h1.2 h2.2⟩

theorem nodesEq_trans (as bs cs : List Node) (h1 : nodesEq as bs = true)
    (h2 : nodesEq bs cs = true) : nodesEq as cs = true := by
  cases as with
  | nil =>
    cases bs with
    | nil => exact h2
    | cons b bs => simp [nodesEq] at h1
  | cons a as =>
    cases bs with
    | nil => simp [nodesEq] at h1
    | cons b bs =>
      cases cs with
      | nil => simp [nodesEq] at h2
      | cons c cs =>
        simp [nodesEq] at h1 h2 ⊢
        exact ⟨nodeEq_trans a b c h1.1 h2.1, nodesEq_trans as bs cs h1.2 h2.2⟩

end

mutual

theorem toHtml_congr (a b : Node) (h : nodeEq a b = true) : toHtml a = toHtml b := by
  cases a with
  | leaf x =>
    cases b with
    | leaf y =>
      simp [nodeEq] at h
      simp [toHtml, h]
    | branch k t ch => simp [nodeEq] at h
  | branch k1 t1 c1 =>
    cases b with
    | leaf y => simp [nodeEq] at h
    | branch k2 t2 c2 =>
      simp [nodeEq] at h
      obtain ⟨⟨hk, ht⟩, hch⟩ := h
      subst hk
      subst ht
      cases k1 <;> simp [toHtml, toHtmlList_congr c1 c2 hch]

theorem toHtmlList_congr (as bs : List Node) (h : nodesEq as bs = true) :
    toHtmlList as = toHtmlList bs := by
  cases as with
  | nil =>
    cases bs with
    | nil => rfl
    | cons b bs => simp [nodesEq] at h
  | cons a as =>
    cases bs with
    | nil => simp [nodesEq] at h
    | cons b bs =>
      simp [nodesEq] at h
      simp [toHtmlList, toHtml_congr a b h.1, toHtmlList_congr as bs h.2]

end

/-- The page of the getting-started scenario built through shorthand
assignment: one keyed assignment of a pair under the fresh page. -/
def shorthandPage : Node :=
  .branch .pageK (some "My Report")
    [.branch .sectionK (some "Words and Images")
      [.branch .rowK none
        [.branch .columnK none [.leaf (.text "# Hi")],
         .branch .columnK none [.leaf (.image "image.jpg")]]]]

/-- The same page built through explicit nested construction, with the
markdown supplied as an equivalently rendering raw-markup content object. -/
def explicitPage : Node :=
  .branch .pageK (some "My Report")
    [.branch .sectionK (some "Words and Images")
      [.branch .rowK none
        [.branch .columnK none [.leaf (.rawMarkup "<div class=\"es-markdown\"># Hi</div>")],
         .branch .columnK none [.leaf (.image "image.jpg")]]]]

/-- C8. Structural equality on Nodes is reflexive, symmetric and transitive,
and a page built through shorthand assignment equals the page built through
explicit nested construction from equivalent content, even though the two
trees hold distinct content objects. -/
theorem claim8_structural_equality :
    (∀ a : Node, nodeEq a a = true) ∧
    (∀ a b : Node, nodeEq a b = true → nodeEq b a = true) ∧
    (∀ a b c : Node, nodeEq a b = true → nodeEq b c = true → nodeEq a c = true) ∧
    (setItem fsDemo (.branch .pageK (some "My Report") []) (.name "Words and Images")
        (.seq [.str "markdown.md", .str "image.jpg"]) = .ok shorthandPage ∧
      shorthandPage ≠ explicitPage ∧
      nodeEq shorthandPage explicitPage = true) := by
  refine ⟨nodeEq_refl, nodeEq_symm, nodeEq_trans, by rfl, ?_, ?_⟩
  · intro hEq
    simp [shorthandPage, explicitPage] at hEq
  · simp [shorthandPage, explicitPage, nodeEq, nodesEq, renderContent]

/-- C8 witness: structural equality applied at concrete trees — reflexivity
on the shorthand page and symmetry across the two equivalently rendering
content objects. -/
theorem claim8_structural_equality_witness :
    nodeEq shorthandPage shorthandPage = true ∧
    nodeEq explicitPage shorthandPage = true := by
  obtain ⟨hrefl, hsymm, _, _, _, heq⟩ := claim8_structural_equality
  exact ⟨hrefl shorthandPage, hsymm shorthandPage explicitPage heq⟩

/-- C9. Serialization is deterministic: serializing the same unmodified tree
twice yields identical output, and any two structurally equal trees — equal
node kinds, titles and child order, contents rendering equivalently —
serialize to identical HTML. -/
theorem claim9_serialization_deterministic :
    (∀ n : Node, toHtml n = toHtml n) ∧
    (∀ a b : Node, nodeEq a b = true → toHtml a = toHtml b) :=
  ⟨fun _ => rfl, toHtml_congr⟩

/-- C9 witness: the shorthand-built and explicitly built scenario pages are
structurally equal but not identical, and serialize to the same HTML. -/
theorem claim9_serialization_deterministic_witness :
    nodeEq shorthandPage explicitPage = true ∧
    toHtml shorthandPage = toHtml explicitPage := by
  have h : nodeEq shorthandPage explicitPage = true := by
    simp [shorthandPage, explicitPage, nodeEq, nodesEq, renderContent]
  exact ⟨h, claim9_serialization_deterministic.2 shorthandPage explicitPage h⟩

end Esparto
